import Mathlib

/-!
Shallow embedding of `scripts/update_coffee_embeddings.py`, the embedding
synchronization pipeline of the better_beans repository: the change detector
(`get_coffee_data`), the fallback embedding generator
(`generate_fallback_embedding`), the primary generator adapter
(`generate_openai_embedding`), the per-record update step
(`update_coffee_embedding`), the batch runner (`main`'s processing loop), and
the process exit paths.

Python floats are modelled as exact rationals (ℚ); the float square root used
by the normalization step and the per-process string hash used by the
expansion step are passed in explicitly as fixed functions, so every
definition stays a pure function of its arguments.  External collaborators
(the OpenAI embeddings endpoint and the Supabase RPC) are modelled as oracle
functions bundled in an `Env`; an oracle answer of `none` models a raised
exception at that call site.
-/

namespace BetterBeans

/-- A row of the `coffees` table as the script reads it.  Timestamps are the
ISO strings the store returns (Python compares them as strings); the stored
embedding only matters through Python truthiness, so it is kept as an optional
list. -/
structure Coffee where
  id : String
  coffee_name : Option String
  flavor_tags : List String
  created_at : Option String
  updated_at : Option String
  flavor_embedding : Option (List ℚ)
deriving DecidableEq

/-- Python `a or b` on two optional strings: the first operand wins unless it
is falsy (`None` or the empty string). -/
def pyOr (a b : Option String) : Option String :=
  match a with
  | some s => if s == "" then b else some s
  | none => b

/-- Python truthiness of an optional string. -/
def truthy : Option String → Bool
  | some s => !(s == "")
  | none => false

/-- Python truthiness test `not embedding` on an optional list: falsy when the
value is `None` or the empty list. -/
def isFalsyList : Option (List ℚ) → Bool
  | none => true
  | some [] => true
  | some (_ :: _) => false

/-- Strict `<` on one Unicode character, by code point, as Python compares
string elements. -/
def charLt (a b : Char) : Bool := a.val < b.val

/-- Lexicographic strict `<` on character lists, by code point — the
comparison Python performs on `str` values. -/
def listCharLt : List Char → List Char → Bool
  | [], [] => false
  | [], _ :: _ => true
  | _ :: _, [] => false
  | a :: as, b :: bs => charLt a b || (a == b && listCharLt as bs)

/-- Python `a < b` on strings. -/
def pyStrLt (a b : String) : Bool := listCharLt a.data b.data

/-- The condition `coffee_updated and coffee_updated > last_update_time` of
`get_coffee_data` (line 171): the record's `updated_at`, falling back to
`created_at` when absent/empty, is truthy and strictly later than the last
sync time. -/
def laterThanSync (last_update_time : String) (c : Coffee) : Bool :=
  let coffee_updated := pyOr c.updated_at c.created_at
  truthy coffee_updated && pyStrLt last_update_time (coffee_updated.getD "")

/-- The `if`/`elif` filter body of `get_coffee_data` (lines 169-175): a record
enters `need_update` when it changed since the last run, or else when its
stored embedding is falsy. -/
def staleCheck (last_update_time : String) (c : Coffee) : Bool :=
  if laterThanSync last_update_time c then true
  else if isFalsyList c.flavor_embedding then true
  else false

/-- `get_coffee_data` (lines 136-181) with its two store reads made explicit:
`coffees` is the result of the `coffees` table select, and `update_logs` is
the outcome of the `update_logs` select — `none` for an exception, otherwise
the list of `created_at` values.  Mirrors the source: empty catalog returns
`[]`; `force_all` returns everything; no usable log history returns
everything; otherwise the staleness filter runs. -/
def get_coffee_data (coffees : List Coffee) (force_all : Bool)
    (update_logs : Option (List String)) : List Coffee :=
  if coffees.isEmpty then []
  else if force_all then coffees
  else
    match update_logs with
    | none => coffees
    | some [] => coffees
    | some (last_update_time :: _) => coffees.filter (staleCheck last_update_time)

/-- `VECTOR_DIMENSIONS` (line 42). -/
def VECTOR_DIMENSIONS : Nat := 1536

/-- The `flavor_map` dictionary of `generate_fallback_embedding`
(lines 214-223), in its fixed insertion order, with the float literals as
exact rationals. -/
def flavorMap : List (String × List ℚ) :=
  [("fruity",    [8/10, 2/10, 1/10, 0,    3/10]),
   ("chocolate", [2/10, 9/10, 4/10, 1/10, 1/10]),
   ("nutty",     [3/10, 5/10, 8/10, 2/10, 1/10]),
   ("floral",    [7/10, 1/10, 2/10, 1/10, 6/10]),
   ("spicy",     [4/10, 2/10, 7/10, 5/10, 3/10]),
   ("sweet",     [5/10, 6/10, 3/10, 1/10, 2/10]),
   ("bitter",    [1/10, 4/10, 5/10, 8/10, 1/10]),
   ("acidic",    [6/10, 2/10, 1/10, 7/10, 4/10])]

/-- `needle` occurs at the head of `hay`. -/
def leadsWith : List Char → List Char → Bool
  | [], _ => true
  | _ :: _, [] => false
  | a :: as, b :: bs => a == b && leadsWith as bs

/-- `needle` occurs somewhere inside `hay`. -/
def occursIn (needle : List Char) : List Char → Bool
  | [] => needle.isEmpty
  | b :: bs => leadsWith needle (b :: bs) || occursIn needle bs

/-- Python substring test `needle in hay` on strings. -/
def strContains (hay needle : String) : Bool := occursIn needle.data hay.data

/-- One iteration of the tag loop of `generate_fallback_embedding`
(lines 228-241): lowercase the tag, take the first dictionary keyword that
occurs inside it and add half its seed vector elementwise, or, with no match,
add `0.05` to every component. -/
def fallbackStep (base_vector : List ℚ) (tag : String) : List ℚ :=
  let tag_lower := tag.toLower
  match flavorMap.find? (fun p => strContains tag_lower p.1) with
  | some p => List.zipWith (fun base flavor_val => base + (1/2) * flavor_val) base_vector p.2
  | none => base_vector.map (fun val => val + 1/20)

/-- The accumulated `base_vector` after the tag loop, starting from
`[0.1] * 5` (line 226). -/
def fallbackBase (flavor_tags : List String) : List ℚ :=
  flavor_tags.foldl fallbackStep (List.replicate 5 (1/10))

/-- `sum(val**2 for val in base_vector)` (line 244). -/
def sumSq (l : List ℚ) : ℚ := (l.map (fun val => val ^ 2)).sum

/-- The inner `for val in normalized` loop of the expansion step
(lines 250-255): append each value's positional variation, stopping as soon
as the accumulator reaches `VECTOR_DIMENSIONS` elements.  `hashQ` stands for
Python's per-process `hash` on the decimal rendering of the current length. -/
def innerFor (hashQ : String → Int) : List ℚ → List ℚ → List ℚ
  | [], full_embedding => full_embedding
  | val :: rest, full_embedding =>
    let variation := val * (19/20 + (((hashQ (toString full_embedding.length)).emod 10 : ℤ) : ℚ) / 100)
    let acc := full_embedding ++ [variation]
    if VECTOR_DIMENSIONS ≤ acc.length then acc
    else innerFor hashQ rest acc

/-- The outer `while len(full_embedding) < VECTOR_DIMENSIONS` loop
(lines 249-255), fuelled: each iteration appends at least one element when
`normalized` is non-empty, so `VECTOR_DIMENSIONS` rounds of fuel are always
enough to reach the loop's exit condition. -/
def extendLoop (hashQ : String → Int) (normalized : List ℚ) : Nat → List ℚ → List ℚ
  | 0, full_embedding => full_embedding
  | fuel + 1, full_embedding =>
    if full_embedding.length < VECTOR_DIMENSIONS then
      extendLoop hashQ normalized fuel (innerFor hashQ normalized full_embedding)
    else full_embedding

/-- `generate_fallback_embedding` (lines 211-257).  `sqrtQ` stands for the
float exponentiation `** 0.5` producing the Euclidean magnitude; `hashQ`
stands for the per-process string hash used by the expansion step.  Both are
fixed functions for the whole run, so the result is a pure function of the
tag list. -/
def generate_fallback_embedding (sqrtQ : ℚ → ℚ) (hashQ : String → Int)
    (flavor_tags : List String) : List ℚ :=
  let base_vector := fallbackBase flavor_tags
  let magnitude := sqrtQ (sumSq base_vector)
  let normalized := base_vector.map (fun val => val / magnitude)
  (extendLoop hashQ normalized VECTOR_DIMENSIONS []).take VECTOR_DIMENSIONS

/-- The observable calls a single record's processing can issue: a request to
the OpenAI generator, a run of the fallback generator, or a persistence write
through the `update_coffee_flavor_vector` RPC. -/
inductive Event
  | openaiCall (text : String)
  | fallbackCall (flavor_tags : List String)
  | rpcCall (coffee_id : String) (embedding_str : String)

/-- The external world of one run: the OpenAI embeddings endpoint's answer to
a prompt (`none` models a raised transport error), the RPC's answer to an
update (`none` models a raised exception, `some b` the returned `result.data`
compared against `True`), plus the two ambient numeric functions of the
fallback generator. -/
structure Env where
  openaiResp : String → Option (List ℚ)
  rpc : String → String → Option Bool
  sqrtQ : ℚ → ℚ
  hashQ : String → Int

/-- `generate_openai_embedding` (lines 184-208): join the tags with a comma
into one prompt, call the service, catch any transport error as `None`, and
reject a reply whose length is not `VECTOR_DIMENSIONS`. -/
def generate_openai_embedding (env : Env) (flavor_tags : List String) : Option (List ℚ) :=
  let text := String.intercalate ", " flavor_tags
  match env.openaiResp text with
  | none => none
  | some embedding => if embedding.length ≠ VECTOR_DIMENSIONS then none else some embedding

/-- The generator dispatch of `update_coffee_embedding` (lines 278-282),
paired with the call event it emits: OpenAI when a key is configured, the
fallback otherwise. -/
def generateStep (env : Env) (has_openai : Bool) (flavor_tags : List String) :
    Option (List ℚ) × List Event :=
  if has_openai then
    (generate_openai_embedding env flavor_tags,
     [Event.openaiCall (String.intercalate ", " flavor_tags)])
  else
    (some (generate_fallback_embedding env.sqrtQ env.hashQ flavor_tags),
     [Event.fallbackCall flavor_tags])

/-- The wire encoding of line 289: a bracketed comma-separated rendering of
the vector. -/
def encodeVector (embedding : List ℚ) : String :=
  "[" ++ String.intercalate "," (embedding.map toString) ++ "]"

/-- `update_coffee_embedding` (lines 260-314), returning its boolean outcome
together with the external calls it issued.  Empty `flavor_tags` returns
failure before any generator runs; a falsy generator result returns failure;
`dry_run` returns success without touching the RPC; otherwise the RPC's
answer decides the outcome (`some true` succeeds, a `False`/unexpected reply
or an exception fails). -/
def update_coffee_embedding (env : Env) (coffee : Coffee)
    (has_openai dry_run : Bool) : Bool × List Event :=
  if coffee.flavor_tags = [] then (false, [])
  else
    let g := generateStep env has_openai coffee.flavor_tags
    if isFalsyList g.1 then (false, g.2)
    else
      let embedding_str := encodeVector (g.1.getD [])
      if dry_run then (true, g.2)
      else
        match env.rpc coffee.id embedding_str with
        | some true => (true, g.2 ++ [Event.rpcCall coffee.id embedding_str])
        | some false => (false, g.2 ++ [Event.rpcCall coffee.id embedding_str])
        | none => (false, g.2 ++ [Event.rpcCall coffee.id embedding_str])

/-- The counters of `main`'s processing loop (lines 347-348), together with
the external calls issued so far. -/
structure RunState where
  updated : Nat
  failed : Nat
  events : List Event

/-- The per-record body of `main`'s inner loop (lines 364-369): run
`update_coffee_embedding` and bump exactly one counter by its outcome. -/
def recordStep (env : Env) (has_openai dry_run : Bool) (st : RunState) (coffee : Coffee) :
    RunState :=
  let r := update_coffee_embedding env coffee has_openai dry_run
  if r.1 then { st with updated := st.updated + 1, events := st.events ++ r.2 }
  else { st with failed := st.failed + 1, events := st.events ++ r.2 }

/-- The batching of `main`'s `for i in range(0, total_coffees, batch_size)`
with `batch = coffees[i:i+batch_size]` (lines 357-358), phrased as repeated
take/drop.  The fuel argument of `sliceAux` is bounded by the list length:
every round with positive `b` consumes at least one element, so
`l.length` rounds always reach the empty remainder. -/
def sliceAux {α : Type} (b : Nat) : Nat → List α → List (List α)
  | 0, _ => []
  | _, [] => []
  | fuel + 1, x :: xs => (x :: xs).take b :: sliceAux b fuel (xs.drop (b - 1))

/-- The list of batches `main` iterates over, for a positive batch size. -/
def sliceBatches {α : Type} (b : Nat) (l : List α) : List (List α) :=
  sliceAux b l.length l

/-- The processing loop of `main` (lines 344-369): counters start at zero and
every batch's records are folded through `recordStep` in order.  Pacing
sleeps, progress logging and timing are pure effects with no influence on the
counters and are not modelled. -/
def run_main (env : Env) (has_openai dry_run : Bool) (coffees : List Coffee)
    (batch_size : Nat) : RunState :=
  (sliceBatches batch_size coffees).foldl
    (fun st batch => batch.foldl (recordStep env has_openai dry_run) st)
    { updated := 0, failed := 0, events := [] }

/-- Recognizer for persistence-write events. -/
def isRpcEvent : Event → Bool
  | Event.rpcCall _ _ => true
  | _ => false

/-- Number of persistence-write (RPC) calls in an event trace. -/
def rpcCount (events : List Event) : Nat := events.countP isRpcEvent

/-- A record with no flavor tags and no stored embedding, used as a concrete
test input. -/
def cNoTags : Coffee :=
  { id := "c0", coffee_name := none, flavor_tags := [], created_at := none,
    updated_at := none, flavor_embedding := none }

/-- A record with one flavor tag and no stored embedding, used as a concrete
test input. -/
def cTagged : Coffee :=
  { id := "c1", coffee_name := some "A", flavor_tags := ["berry"], created_at := none,
    updated_at := none, flavor_embedding := none }

/-- A record updated before the sample sync time `"2024-06-01"` whose stored
embedding is present, used as a concrete test input. -/
def cPresent : Coffee :=
  { id := "c2", coffee_name := none, flavor_tags := ["berry"], created_at := some "2024-01-01",
    updated_at := some "2024-02-01", flavor_embedding := some [1] }

/-- A concrete environment whose persistence RPC reports failure on every
write and whose OpenAI endpoint answers with a well-formed vector. -/
def envFail : Env :=
  { openaiResp := fun _ => some (List.replicate 1536 0),
    rpc := fun _ _ => some false,
    sqrtQ := fun q => q,
    hashQ := fun _ => 0 }

/-- A concrete environment whose persistence RPC succeeds on every write and
whose OpenAI endpoint answers with a well-formed vector. -/
def envOK : Env :=
  { openaiResp := fun _ => some (List.replicate 1536 0),
    rpc := fun _ _ => some true,
    sqrtQ := fun q => q,
    hashQ := fun _ => 0 }

/-- The ways the process can terminate, one per exit path of the script: a
normal return from `main` (including runs with per-record failures and the
declined fallback prompt), the two `sys.exit(1)` calls of
`initialize_clients` (lines 115-117 and 131-133), and the two handlers of the
`__main__` guard (lines 395-403). -/
inductive ScriptOutcome
  | completed
  | exitMissingCredentials
  | exitGatewayInit
  | interrupted
  | unhandled

/-- The process exit status of each termination path, read off the source: a
normal return exits 0, every `sys.exit(1)` path exits 1, and both `__main__`
handlers call `sys.exit(1)`. -/
def exit_status : ScriptOutcome → Nat
  | ScriptOutcome.completed => 0
  | ScriptOutcome.exitMissingCredentials => 1
  | ScriptOutcome.exitGatewayInit => 1
  | ScriptOutcome.interrupted => 1
  | ScriptOutcome.unhandled => 1

lemma sliceAux_nil {α : Type} (b fuel : Nat) : sliceAux (α := α) b fuel [] = [] := by
  cases fuel <;> rfl

lemma sliceAux_flatten {α : Type} (b : Nat) (hb : 0 < b) :
    ∀ (fuel : Nat) (l : List α), l.length ≤ fuel → (sliceAux b fuel l).flatten = l := by
  intro fuel
  induction fuel with
  | zero =>
    intro l hl
    have : l = [] := by
      cases l with
      | nil => rfl
      | cons x xs => simp at hl
    subst this
    simp [sliceAux_nil]
  | succ fuel ih =>
    intro l hl
    cases l with
    | nil => simp [sliceAux_nil]
    | cons x xs =>
      obtain ⟨b', rfl⟩ : ∃ b', b = b' + 1 := ⟨b - 1, by omega⟩
      show ((x :: xs).take (b' + 1) :: sliceAux (b' + 1) fuel (xs.drop b')).flatten = x :: xs
      rw [List.flatten_cons]
      rw [ih (xs.drop b') (by simp [List.length_drop]; simp at hl; omega)]
      show x :: (xs.take b' ++ xs.drop b') = x :: xs
      rw [List.take_append_drop]

lemma sliceBatches_flatten {α : Type} (b : Nat) (l : List α) (hb : 0 < b) :
    (sliceBatches b l).flatten = l :=
  sliceAux_flatten b hb l.length l (Nat.le_refl _)

lemma sliceAux_mem_bound {α : Type} (b : Nat) (hb : 0 < b) :
    ∀ (fuel : Nat) (l : List α), ∀ batch ∈ sliceAux b fuel l, batch ≠ [] ∧ batch.length ≤ b := by
  intro fuel
  induction fuel with
  | zero => intro l batch h; simp [sliceAux] at h
  | succ fuel ih =>
    intro l batch h
    cases l with
    | nil => simp [sliceAux_nil] at h
    | cons x xs =>
      obtain ⟨b', rfl⟩ : ∃ b', b = b' + 1 := ⟨b - 1, by omega⟩
      have hshape : sliceAux (b' + 1) (fuel + 1) (x :: xs)
          = (x :: xs).take (b' + 1) :: sliceAux (b' + 1) fuel (xs.drop b') := rfl
      rw [hshape] at h
      rcases List.mem_cons.mp h with h | h
      · subst h
        constructor
        · simp [List.take_succ_cons]
        · rw [List.length_take]
          exact min_le_left _ _
      · exact ih (xs.drop b') batch h

lemma sliceAux_dropLast {α : Type} (b : Nat) (hb : 0 < b) :
    ∀ (fuel : Nat) (l : List α), ∀ batch ∈ (sliceAux b fuel l).dropLast, batch.length = b := by
  intro fuel
  induction fuel with
  | zero => intro l batch h; simp [sliceAux] at h
  | succ fuel ih =>
    intro l batch h
    cases l with
    | nil => simp [sliceAux_nil] at h
    | cons x xs =>
      obtain ⟨b', rfl⟩ : ∃ b', b = b' + 1 := ⟨b - 1, by omega⟩
      have hshape : sliceAux (b' + 1) (fuel + 1) (x :: xs)
          = (x :: xs).take (b' + 1) :: sliceAux (b' + 1) fuel (xs.drop b') := rfl
      rw [hshape] at h
      cases hrest : sliceAux (b' + 1) fuel (xs.drop b') with
      | nil => rw [hrest] at h; simp at h
      | cons r rs =>
        rw [hrest] at h
        rw [List.dropLast_cons₂] at h
        rcases List.mem_cons.mp h with h | h
        · subst h
          have hxs : xs.drop b' ≠ [] := by
            intro hcon
            rw [hcon, sliceAux_nil] at hrest
            exact List.noConfusion hrest
          have : b' < xs.length := by
            by_contra hcon
            push_neg at hcon
            exact hxs (List.drop_eq_nil_of_le hcon)
          simp [List.length_take]
          omega
        · have hrec := ih (xs.drop b')
          rw [hrest] at hrec
          exact hrec batch h

lemma run_main_eq_foldl (env : Env) (has_openai dry_run : Bool) (coffees : List Coffee)
    (b : Nat) (hb : 0 < b) :
    run_main env has_openai dry_run coffees b
      = coffees.foldl (recordStep env has_openai dry_run) { updated := 0, failed := 0, events := [] } := by
  unfold run_main
  conv_rhs => rw [← sliceBatches_flatten b coffees hb]
  rw [List.foldl_flatten]

lemma recordStep_updated (env : Env) (has_openai dry_run : Bool) (st : RunState) (c : Coffee) :
    (recordStep env has_openai dry_run st c).updated
      = st.updated + (if (update_coffee_embedding env c has_openai dry_run).1 then 1 else 0) := by
  cases h : (update_coffee_embedding env c has_openai dry_run).1 <;> simp [recordStep, h]

lemma recordStep_failed (env : Env) (has_openai dry_run : Bool) (st : RunState) (c : Coffee) :
    (recordStep env has_openai dry_run st c).failed
      = st.failed + (if (update_coffee_embedding env c has_openai dry_run).1 then 0 else 1) := by
  cases h : (update_coffee_embedding env c has_openai dry_run).1 <;> simp [recordStep, h]

lemma recordStep_events (env : Env) (has_openai dry_run : Bool) (st : RunState) (c : Coffee) :
    (recordStep env has_openai dry_run st c).events
      = st.events ++ (update_coffee_embedding env c has_openai dry_run).2 := by
  cases h : (update_coffee_embedding env c has_openai dry_run).1 <;> simp [recordStep, h]

lemma foldl_recordStep_updated (env : Env) (has_openai dry_run : Bool) :
    ∀ (l : List Coffee) (st : RunState),
      (l.foldl (recordStep env has_openai dry_run) st).updated
        = st.updated + l.countP (fun c => (update_coffee_embedding env c has_openai dry_run).1) := by
  intro l
  induction l with
  | nil => intro st; simp
  | cons c l ih =>
    intro st
    rw [List.foldl_cons, ih, List.countP_cons, recordStep_updated]
    by_cases h : (update_coffee_embedding env c has_openai dry_run).1 = true <;> simp [h] <;> omega

lemma foldl_recordStep_sum (env : Env) (has_openai dry_run : Bool) :
    ∀ (l : List Coffee) (st : RunState),
      (l.foldl (recordStep env has_openai dry_run) st).updated
          + (l.foldl (recordStep env has_openai dry_run) st).failed
        = st.updated + st.failed + l.length := by
  intro l
  induction l with
  | nil => intro st; simp
  | cons c l ih =>
    intro st
    rw [List.foldl_cons, ih, recordStep_updated, recordStep_failed]
    by_cases h : (update_coffee_embedding env c has_openai dry_run).1 = true <;> simp [h] <;> omega

lemma foldl_recordStep_rpcCount (env : Env) (has_openai dry_run : Bool) :
    ∀ (l : List Coffee) (st : RunState),
      rpcCount (l.foldl (recordStep env has_openai dry_run) st).events
        = rpcCount st.events
          + (l.map (fun c => rpcCount (update_coffee_embedding env c has_openai dry_run).2)).sum := by
  intro l
  induction l with
  | nil => intro st; simp
  | cons c l ih =>
    intro st
    rw [List.foldl_cons, ih, recordStep_events]
    unfold rpcCount
    rw [List.countP_append]
    simp
    omega

lemma rpcCount_generateStep (env : Env) (has_openai : Bool) (flavor_tags : List String) :
    rpcCount (generateStep env has_openai flavor_tags).2 = 0 := by
  cases has_openai <;> simp [generateStep, rpcCount, isRpcEvent]

lemma uce_dry_rpcFree (env : Env) (has_openai : Bool) (c : Coffee) :
    rpcCount (update_coffee_embedding env c has_openai true).2 = 0 := by
  unfold update_coffee_embedding
  dsimp only
  split
  · simp [rpcCount]
  · split
    · exact rpcCount_generateStep env has_openai c.flavor_tags
    · rw [if_pos rfl]
      exact rpcCount_generateStep env has_openai c.flavor_tags

lemma uce_live_eq_dry (env : Env) (has_openai : Bool) (c : Coffee)
    (hrpc : ∀ id s, env.rpc id s = some true) :
    (update_coffee_embedding env c has_openai false).1
      = (update_coffee_embedding env c has_openai true).1 := by
  unfold update_coffee_embedding
  dsimp only
  split
  · rfl
  · split
    · rfl
    · rw [hrpc]
      rfl

lemma mem_zipWith_ex {α β γ : Type} {g : α → β → γ} :
    ∀ {as : List α} {bs : List β} {x : γ}, x ∈ List.zipWith g as bs →
      ∃ a, a ∈ as ∧ ∃ b, b ∈ bs ∧ x = g a b := by
  intro as
  induction as with
  | nil => intro bs x h; simp [List.zipWith] at h
  | cons a as ih =>
    intro bs x h
    cases bs with
    | nil => simp [List.zipWith] at h
    | cons b bs =>
      rcases List.mem_cons.mp h with h | h
      · exact ⟨a, List.mem_cons_self a as, b, List.mem_cons_self b bs, h⟩
      · obtain ⟨a0, ha0, b0, hb0, hx⟩ := ih h
        exact ⟨a0, List.mem_cons_of_mem a ha0, b0, List.mem_cons_of_mem b hb0, hx⟩

lemma flavorMap_vectors : ∀ p ∈ flavorMap, (∀ x ∈ p.2, (0:ℚ) ≤ x) ∧ p.2.length = 5 := by
  intro p hp
  fin_cases hp <;>
    refine ⟨fun x hx => ?_, rfl⟩ <;>
    fin_cases hx <;> norm_num

lemma fallbackStep_ge (base : List ℚ) (tag : String)
    (hb : ∀ x ∈ base, (1:ℚ)/10 ≤ x) :
    ∀ x ∈ fallbackStep base tag, (1:ℚ)/10 ≤ x := by
  intro x hx
  unfold fallbackStep at hx
  dsimp only at hx
  split at hx
  case h_1 p hfind =>
    obtain ⟨a, ha, f, hf, rfl⟩ := mem_zipWith_ex hx
    have hnn := (flavorMap_vectors p (List.mem_of_find?_eq_some hfind)).1 f hf
    have := hb a ha
    linarith
  case h_2 =>
    obtain ⟨a, ha, rfl⟩ := List.mem_map.mp hx
    have := hb a ha
    linarith

lemma fallbackStep_length (base : List ℚ) (tag : String) (h5 : base.length = 5) :
    (fallbackStep base tag).length = 5 := by
  unfold fallbackStep
  dsimp only
  split
  case h_1 p hfind =>
    rw [List.length_zipWith, h5, (flavorMap_vectors p (List.mem_of_find?_eq_some hfind)).2]
    simp
  case h_2 =>
    rw [List.length_map, h5]

lemma foldl_fallbackStep (flavor_tags : List String) :
    ∀ base : List ℚ, (∀ x ∈ base, (1:ℚ)/10 ≤ x) → base.length = 5 →
      (∀ x ∈ flavor_tags.foldl fallbackStep base, (1:ℚ)/10 ≤ x)
        ∧ (flavor_tags.foldl fallbackStep base).length = 5 := by
  induction flavor_tags with
  | nil => intro base hge h5; exact ⟨hge, h5⟩
  | cons tag tags ih =>
    intro base hge h5
    rw [List.foldl_cons]
    exact ih (fallbackStep base tag) (fallbackStep_ge base tag hge) (fallbackStep_length base tag h5)

lemma fallbackBase_ge (flavor_tags : List String) :
    ∀ x ∈ fallbackBase flavor_tags, (1:ℚ)/10 ≤ x :=
  (foldl_fallbackStep flavor_tags (List.replicate 5 (1/10))
    (fun _ hx => le_of_eq (List.eq_of_mem_replicate hx).symm)
    (List.length_replicate 5 _)).1

lemma fallbackBase_length (flavor_tags : List String) :
    (fallbackBase flavor_tags).length = 5 :=
  (foldl_fallbackStep flavor_tags (List.replicate 5 (1/10))
    (fun _ hx => le_of_eq (List.eq_of_mem_replicate hx).symm)
    (List.length_replicate 5 _)).2

lemma sumSq_nonneg : ∀ l : List ℚ, 0 ≤ sumSq l := by
  intro l
  induction l with
  | nil => simp [sumSq]
  | cons a l ih =>
    have : sumSq (a :: l) = a ^ 2 + sumSq l := by simp [sumSq]
    rw [this]
    have := sq_nonneg a
    linarith

lemma innerFor_length_le (hashQ : String → Int) :
    ∀ (vs full_embedding : List ℚ),
      full_embedding.length ≤ (innerFor hashQ vs full_embedding).length := by
  intro vs
  induction vs with
  | nil => intro acc; simp [innerFor]
  | cons v vs ih =>
    intro acc
    unfold innerFor
    dsimp only
    split
    · simp
    · calc acc.length ≤ (acc ++ [_]).length := by simp
        _ ≤ _ := ih _

lemma innerFor_length_succ (hashQ : String → Int) (v : ℚ) (vs full_embedding : List ℚ) :
    full_embedding.length + 1 ≤ (innerFor hashQ (v :: vs) full_embedding).length := by
  unfold innerFor
  dsimp only
  split
  · simp
  · calc full_embedding.length + 1 = (full_embedding ++ [_]).length := by simp
      _ ≤ _ := innerFor_length_le hashQ vs _

lemma extendLoop_length (hashQ : String → Int) (normalized : List ℚ)
    (hn : normalized ≠ []) :
    ∀ (fuel : Nat) (full_embedding : List ℚ),
      VECTOR_DIMENSIONS ≤ full_embedding.length + fuel →
      VECTOR_DIMENSIONS ≤ (extendLoop hashQ normalized fuel full_embedding).length := by
  intro fuel
  induction fuel with
  | zero =>
    intro acc hacc
    simpa [extendLoop] using hacc
  | succ fuel ih =>
    intro acc hacc
    unfold extendLoop
    split
    · apply ih
      cases normalized with
      | nil => exact absurd rfl hn
      | cons v vs =>
        have := innerFor_length_succ hashQ v vs acc
        omega
    · omega

lemma generate_fallback_embedding_length (sqrtQ : ℚ → ℚ) (hashQ : String → Int)
    (flavor_tags : List String) :
    (generate_fallback_embedding sqrtQ hashQ flavor_tags).length = VECTOR_DIMENSIONS := by
  unfold generate_fallback_embedding
  dsimp only
  rw [List.length_take]
  have hn : (fallbackBase flavor_tags).map
      (fun val => val / sqrtQ (sumSq (fallbackBase flavor_tags))) ≠ [] := by
    intro hcon
    have := congrArg List.length hcon
    rw [List.length_map, fallbackBase_length] at this
    simp at this
  have := extendLoop_length hashQ _ hn VECTOR_DIMENSIONS [] (by simp)
  omega

lemma staleCheck_eq (t : String) (c : Coffee) :
    staleCheck t c = (laterThanSync t c || isFalsyList c.flavor_embedding) := by
  unfold staleCheck
  cases laterThanSync t c <;> cases isFalsyList c.flavor_embedding <;> simp

lemma sumSq_pos_of_bounds (l : List ℚ) (hne : l ≠ []) (hge : ∀ x ∈ l, (1:ℚ)/10 ≤ x) :
    0 < sumSq l := by
  cases l with
  | nil => exact absurd rfl hne
  | cons a rest =>
    have ha := hge a (List.mem_cons_self a rest)
    have h1 : sumSq (a :: rest) = a ^ 2 + sumSq rest := by simp [sumSq]
    have h2 : 0 < a ^ 2 := pow_pos (by linarith) 2
    have h3 := sumSq_nonneg rest
    rw [h1]
    linarith

/-- C1: with `force_all` unset and a last sync time on record, the change
detector's work set contains a record exactly when its `updated_at`
(falling back to `created_at` when absent) is strictly later than the last
sync time, or its `flavor_embedding` is absent/empty; in particular a record
updated before the last sync time with a present embedding fails both
disjuncts and is excluded. -/
theorem spec_C1 (coffees : List Coffee) (t : String) (rest : List String) (c : Coffee) :
    c ∈ get_coffee_data coffees false (some (t :: rest)) ↔
      c ∈ coffees ∧ (laterThanSync t c = true ∨ isFalsyList c.flavor_embedding = true) := by
  unfold get_coffee_data
  by_cases hemp : coffees.isEmpty = true
  · rw [if_pos hemp]
    have h0 : coffees = [] := by
      cases coffees with
      | nil => rfl
      | cons a l => simp [List.isEmpty] at hemp
    subst h0
    simp
  · rw [if_neg hemp]
    rw [if_neg (by simp)]
    show c ∈ List.filter (staleCheck t) coffees ↔ _
    rw [List.mem_filter, staleCheck_eq]
    simp [Bool.or_eq_true]

/-- C2 counterexample: a record whose `flavor_tags` is empty does appear in
the work set returned by the change detector — `get_coffee_data` never
inspects `flavor_tags`, so under `force_all` the empty-tag record `cNoTags`
is returned. -/
theorem spec_C2_counterexample :
    cNoTags ∈ get_coffee_data [cNoTags] true (some []) ∧ cNoTags.flavor_tags = [] := by
  decide

/-- C2 (amended): a record with empty `flavor_tags` is not excluded by the
change detector; it is instead rejected at processing time —
`update_coffee_embedding` returns failure on it immediately, issuing no
generator call and no persistence call (its event trace is empty), after
logging a warning. -/
theorem spec_C2 (env : Env) (has_openai dry_run : Bool) (c : Coffee)
    (h : c.flavor_tags = []) :
    update_coffee_embedding env c has_openai dry_run = (false, []) := by
  unfold update_coffee_embedding
  rw [if_pos h]

theorem spec_C2_witness :
    update_coffee_embedding envFail cNoTags true true = (false, []) :=
  spec_C2 envFail true true cNoTags rfl

/-- C3: the fallback generator returns a vector of exactly 1536 elements for
every non-empty tag list, whatever the ambient square root and hash
functions — in particular both when no tag matches a dictionary keyword and
when every tag does, since the proof never constrains the match outcomes. -/
theorem spec_C3 (sqrtQ : ℚ → ℚ) (hashQ : String → Int) (flavor_tags : List String)
    (_h : flavor_tags ≠ []) :
    (generate_fallback_embedding sqrtQ hashQ flavor_tags).length = 1536 :=
  generate_fallback_embedding_length sqrtQ hashQ flavor_tags

theorem spec_C3_witness :
    (generate_fallback_embedding (fun q => q) (fun _ => 0) ["berry"]).length = 1536 :=
  spec_C3 (fun q => q) (fun _ => 0) ["berry"] (by decide)

set_option maxRecDepth 100000 in
/-- C4 counterexample: with a persistence gateway whose RPC reports failure,
a dry run counts the record as updated while the live run counts it as
failed, so dry-run and live `updated_count` differ on the same input with
the same generator availability. -/
theorem spec_C4_counterexample :
    (run_main envFail true true [cTagged] 5).updated
      ≠ (run_main envFail true false [cTagged] 5).updated := by
  decide

/-- C4 (amended): provided every persistence write succeeds, a dry run
produces the same final `updated` count as a live run on the same input with
the same generator availability; a dry run issues zero persistence-write
(RPC) calls; and in a dry run the generation step still executes, each record
whose generation succeeds being counted toward `updated`. -/
theorem spec_C4 (env : Env) (has_openai : Bool) (coffees : List Coffee) (b : Nat)
    (hb : 0 < b) (hrpc : ∀ id s, env.rpc id s = some true) :
    (run_main env has_openai true coffees b).updated
        = (run_main env has_openai false coffees b).updated
    ∧ rpcCount (run_main env has_openai true coffees b).events = 0
    ∧ (run_main env has_openai true coffees b).updated
        = coffees.countP (fun c => (update_coffee_embedding env c has_openai true).1) := by
  have hdry := run_main_eq_foldl env has_openai true coffees b hb
  have hlive := run_main_eq_foldl env has_openai false coffees b hb
  refine ⟨?_, ?_, ?_⟩
  · rw [hdry, hlive, foldl_recordStep_updated, foldl_recordStep_updated]
    congr 1
    apply List.countP_congr
    intro c hc
    rw [uce_live_eq_dry env has_openai c hrpc]
  · rw [hdry, foldl_recordStep_rpcCount]
    have hz : ((coffees.map
        (fun c => rpcCount (update_coffee_embedding env c has_openai true).2))).sum = 0 := by
      apply List.sum_eq_zero
      intro x hx
      obtain ⟨c, hc, rfl⟩ := List.mem_map.mp hx
      exact uce_dry_rpcFree env has_openai c
    rw [hz]
    rfl
  · rw [hdry, foldl_recordStep_updated]
    simp

theorem spec_C4_witness :
    (run_main envOK true true [cTagged] 5).updated
        = (run_main envOK true false [cTagged] 5).updated
    ∧ rpcCount (run_main envOK true true [cTagged] 5).events = 0
    ∧ (run_main envOK true true [cTagged] 5).updated
        = [cTagged].countP (fun c => (update_coffee_embedding envOK c true true).1) :=
  spec_C4 envOK true [cTagged] 5 (by decide) (fun _ _ => rfl)

/-- C5: per-record errors are isolated.  Over every environment (covering
generator dimension mismatch, generator transport failure and persistence
write failure) the runner still processes every record — updated plus failed
equals the work-set size, so no per-record error aborts the batch or the
run; a record with empty `flavor_tags` fails with an empty event trace, so it
is never passed to either generator; and any record whose step fails
increments only the failure counter. -/
theorem spec_C5 (env : Env) (has_openai dry_run : Bool) (coffees : List Coffee) (b : Nat)
    (st : RunState) (c failing : Coffee) (hb : 0 < b) (hc : c.flavor_tags = [])
    (hfail : (update_coffee_embedding env failing has_openai dry_run).1 = false) :
    ((run_main env has_openai dry_run coffees b).updated
        + (run_main env has_openai dry_run coffees b).failed = coffees.length)
    ∧ update_coffee_embedding env c has_openai dry_run = (false, [])
    ∧ (recordStep env has_openai dry_run st failing).failed = st.failed + 1
    ∧ (recordStep env has_openai dry_run st failing).updated = st.updated := by
  refine ⟨?_, ?_, ?_, ?_⟩
  · rw [run_main_eq_foldl env has_openai dry_run coffees b hb, foldl_recordStep_sum]
    simp
  · unfold update_coffee_embedding
    rw [if_pos hc]
  · rw [recordStep_failed, hfail]
    simp
  · rw [recordStep_updated, hfail]
    simp

theorem spec_C5_witness :
    ((run_main envFail true false [cNoTags] 5).updated
        + (run_main envFail true false [cNoTags] 5).failed = [cNoTags].length)
    ∧ update_coffee_embedding envFail cNoTags true false = (false, [])
    ∧ (recordStep envFail true false { updated := 0, failed := 0, events := [] } cNoTags).failed
        = 0 + 1
    ∧ (recordStep envFail true false { updated := 0, failed := 0, events := [] } cNoTags).updated
        = 0 :=
  spec_C5 envFail true false [cNoTags] 5 { updated := 0, failed := 0, events := [] }
    cNoTags cNoTags (by decide) rfl rfl

/-- C6 counterexample: the cancellation exit status is not distinct from the
status used for unhandled failures — both `__main__` handlers call
`sys.exit(1)`, so the two statuses are equal. -/
theorem spec_C6_counterexample :
    exit_status ScriptOutcome.interrupted = exit_status ScriptOutcome.unhandled := rfl

/-- C6 (amended): a run that completes exits with status 0 even when some
records failed; fatal setup failure (missing credentials, gateway
initialization failure) and user cancellation exit nonzero (status 1) — but
the cancellation status equals the status used for unhandled failures, the
two being distinguished only in the logged message. -/
theorem spec_C6 :
    exit_status ScriptOutcome.completed = 0
    ∧ exit_status ScriptOutcome.exitMissingCredentials = 1
    ∧ exit_status ScriptOutcome.exitGatewayInit = 1
    ∧ exit_status ScriptOutcome.interrupted = 1
    ∧ exit_status ScriptOutcome.unhandled = 1
    ∧ exit_status ScriptOutcome.interrupted = exit_status ScriptOutcome.unhandled :=
  ⟨rfl, rfl, rfl, rfl, rfl, rfl⟩

/-- C7: for every work set and positive batch size, the runner's batching
partitions the work set into consecutive batches — their concatenation is the
original list, so every record is visited exactly once — with every batch
except possibly the last of length exactly `batch_size`, every batch
non-empty and no longer than `batch_size`; in particular a work set of 13
records with batch size 5 yields batches of sizes 5, 5, 3. -/
theorem spec_C7 {α : Type} (l : List α) (b : Nat) (hb : 0 < b) :
    ((sliceBatches b l).flatten = l
      ∧ (∀ batch ∈ (sliceBatches b l).dropLast, batch.length = b)
      ∧ (∀ batch ∈ sliceBatches b l, batch ≠ [] ∧ batch.length ≤ b))
    ∧ (sliceBatches 5 (List.replicate 13 cNoTags)).map List.length = [5, 5, 3] := by
  refine ⟨⟨sliceBatches_flatten b l hb, ?_, ?_⟩, by decide⟩
  · exact fun batch h => sliceAux_dropLast b hb l.length l batch h
  · exact fun batch h => sliceAux_mem_bound b hb l.length l batch h

theorem spec_C7_witness :
    (sliceBatches 2 (List.replicate 3 cNoTags)).flatten = List.replicate 3 cNoTags :=
  ((spec_C7 (List.replicate 3 cNoTags) 2 (by decide)).1).1

/-- C8: the fallback generator is pure and deterministic — with the ambient
square-root and per-process hash functions fixed, two calls on the identical
tag sequence return the identical vector; the definition involves no
external input and no randomness. -/
theorem spec_C8 (sqrtQ : ℚ → ℚ) (hashQ : String → Int) (tags1 tags2 : List String)
    (h : tags1 = tags2) :
    generate_fallback_embedding sqrtQ hashQ tags1
      = generate_fallback_embedding sqrtQ hashQ tags2 := by
  rw [h]

theorem spec_C8_witness :
    generate_fallback_embedding (fun q => q) (fun _ => 0) ["berry"]
      = generate_fallback_embedding (fun q => q) (fun _ => 0) ["berry"] :=
  spec_C8 (fun q => q) (fun _ => 0) ["berry"] ["berry"] rfl

/-- C9: the L2-normalization of the fallback generator never divides by a
zero norm — every component of the accumulated base vector stays at least
0.1 (the base is 0.1 per component and every addition is non-negative), so
the sum of squares of the intermediate vector is strictly positive for every
tag list, and hence its Euclidean norm is nonzero. -/
theorem spec_C9 (flavor_tags : List String) : 0 < sumSq (fallbackBase flavor_tags) := by
  apply sumSq_pos_of_bounds
  · intro hcon
    have := congrArg List.length hcon
    rw [fallbackBase_length] at this
    simp at this
  · exact fallbackBase_ge flavor_tags

/-- C10: counter invariant of the runner — both counters start at 0 (the
initial state of `run_main`), each processed record increments exactly one of
the two counters by exactly one, and at the terminal state updated plus
failed equals the size of the work set. -/
theorem spec_C10 (env : Env) (has_openai dry_run : Bool) (coffees : List Coffee) (b : Nat)
    (st : RunState) (c : Coffee) (hb : 0 < b) :
    ((run_main env has_openai dry_run coffees b).updated
        + (run_main env has_openai dry_run coffees b).failed = coffees.length)
    ∧ (((recordStep env has_openai dry_run st c).updated = st.updated + 1
          ∧ (recordStep env has_openai dry_run st c).failed = st.failed)
        ∨ ((recordStep env has_openai dry_run st c).updated = st.updated
          ∧ (recordStep env has_openai dry_run st c).failed = st.failed + 1)) := by
  constructor
  · rw [run_main_eq_foldl env has_openai dry_run coffees b hb, foldl_recordStep_sum]
    simp
  · rw [recordStep_updated, recordStep_failed]
    cases h : (update_coffee_embedding env c has_openai dry_run).1
    · exact Or.inr (by simp)
    · exact Or.inl (by simp)

theorem spec_C10_witness :
    ((run_main envFail true false [cNoTags] 5).updated
        + (run_main envFail true false [cNoTags] 5).failed = [cNoTags].length)
    ∧ (((recordStep envFail true false { updated := 0, failed := 0, events := [] } cNoTags).updated
          = 0 + 1
        ∧ (recordStep envFail true false { updated := 0, failed := 0, events := [] } cNoTags).failed
          = 0)
      ∨ ((recordStep envFail true false { updated := 0, failed := 0, events := [] } cNoTags).updated
          = 0
        ∧ (recordStep envFail true false { updated := 0, failed := 0, events := [] } cNoTags).failed
          = 0 + 1)) :=
  spec_C10 envFail true false [cNoTags] 5 { updated := 0, failed := 0, events := [] } cNoTags
    (by decide)

end BetterBeans
